import Mathlib

set_option maxHeartbeats 4000000
set_option maxRecDepth 40000

/-
Verification of the operator-lexing DFA of quick-lint-js
(src/quick-lint-js/fe/lex-tables.h): the byte classifier
character_class_table, the state transition_table, the resolver
state_to_token, and the lookup driver try_parse_current_token.

Bytes are modelled as Nat (the source reads uint8 values from a
sentinel-terminated buffer).  States keep the bit-packed encoding of
the source: the low state_data_bits bits are the data index and the
high bits are the dispatcher tag (0 = transition, 1 = done_retract,
2 = done_unique_terminal).
-/

/-- Token kinds named by state_to_token in the source, together with
identifier, which the source uses as invalid_token_type. -/
inductive token_type : Type where
  | identifier
  | bang
  | percent
  | ampersand
  | plus
  | equal
  | greater
  | circumflex
  | pipe
  | bang_equal
  | ampersand_ampersand
  | equal_equal
  | greater_greater
  | pipe_pipe
  | greater_greater_greater
  | percent_equal
  | ampersand_equal
  | plus_plus
  | plus_equal
  | equal_greater
  | greater_equal
  | circumflex_equal
  | pipe_equal
  | bang_equal_equal
  | ampersand_ampersand_equal
  | equal_equal_equal
  | greater_greater_equal
  | pipe_pipe_equal
  | greater_greater_greater_equal
  deriving DecidableEq

/-- Source: constexpr token_type invalid_token_type = token_type::identifier. -/
def invalid_token_type : token_type := token_type.identifier

-- enum character_class (values 0..8, other_character_class last).

def bang : Nat := 0

def percent : Nat := 1

def ampersand : Nat := 2

def plus : Nat := 3

def equal : Nat := 4

def greater : Nat := 5

def circumflex : Nat := 6

def pipe : Nat := 7

def other_character_class : Nat := 8

def character_class_count : Nat := 9

/-- Byte classification table.  The 256-entry array of the source maps
byte 33 to bang, 37 to percent, 38 to ampersand, 43 to plus, 61 to
equal, 62 to greater, 94 to circumflex, 124 to pipe, and every other
byte to other_character_class; the static asserts under the table in
the source document exactly this mapping.  Arguments outside 0..255
never occur for byte reads and are classified to the catch-all class. -/
def character_class_table (b : Nat) : Nat :=
  if b = 33 then bang
  else if b = 37 then percent
  else if b = 38 then ampersand
  else if b = 43 then plus
  else if b = 61 then equal
  else if b = 62 then greater
  else if b = 94 then circumflex
  else if b = 124 then pipe
  else other_character_class

def state_data_bits : Nat := 5

def state_data_mask : Nat := 31

def state_dispatcher_bits : Nat := 3

-- enum state.  Initial states share the numbers of the character
-- classes (NOTE[lex-table-initial] in the source).

def bang_equal : Nat := 8 ||| (0 <<< state_data_bits)

def ampersand_ampersand : Nat := 9 ||| (0 <<< state_data_bits)

def equal_equal : Nat := 10 ||| (0 <<< state_data_bits)

def greater_greater : Nat := 11 ||| (0 <<< state_data_bits)

def pipe_pipe : Nat := 12 ||| (0 <<< state_data_bits)

def greater_greater_greater : Nat := 13 ||| (0 <<< state_data_bits)

def done_percent_equal : Nat := 14 ||| (2 <<< state_data_bits)

def done_ampersand_equal : Nat := 15 ||| (2 <<< state_data_bits)

def done_plus_plus : Nat := 16 ||| (2 <<< state_data_bits)

def done_plus_equal : Nat := 17 ||| (2 <<< state_data_bits)

def done_equal_greater : Nat := 18 ||| (2 <<< state_data_bits)

def done_greater_equal : Nat := 19 ||| (2 <<< state_data_bits)

def done_circumflex_equal : Nat := 20 ||| (2 <<< state_data_bits)

def done_pipe_equal : Nat := 21 ||| (2 <<< state_data_bits)

def done_bang_equal_equal : Nat := 22 ||| (2 <<< state_data_bits)

def done_ampersand_ampersand_equal : Nat := 23 ||| (2 <<< state_data_bits)

def done_equal_equal_equal : Nat := 24 ||| (2 <<< state_data_bits)

def done_greater_greater_equal : Nat := 25 ||| (2 <<< state_data_bits)

def done_pipe_pipe_equal : Nat := 26 ||| (2 <<< state_data_bits)

def done_greater_greater_greater_equal : Nat := 27 ||| (2 <<< state_data_bits)

/-- The retract pseudo-state: the most recent byte must be pushed back. -/
def retract : Nat := 1 <<< state_data_bits

def input_state_count : Nat := 14

/-- Source: returns true if there are no transitions from this state
(a complete state or a misc state, group D or E of the state order). -/
def is_terminal_state (s : Nat) : Bool := decide (greater_greater_greater < s)

/-- Source: returns true if an initial state has no transitions.
Precondition in the source: s is an initial state. -/
def is_initial_state_terminal (s : Nat) : Bool := decide (bang_equal ≤ s)

/-- State transition table, indexed by the character class of the
upcoming byte first and the current state second, exactly as in the
source.  The declared C array has character_class_count + 1 rows; the
last row is zero-initialized in the source and is unreachable because
classes are always below character_class_count. -/
def transition_table : List (List Nat) := [
  -- row for class bang (byte 33): every extension is invalid
  [retract, retract, retract, retract, retract, retract, retract,
   retract, retract, retract, retract, retract, retract, retract],
  -- row for class percent (byte 37): every extension is invalid
  [retract, retract, retract, retract, retract, retract, retract,
   retract, retract, retract, retract, retract, retract, retract],
  -- row for class ampersand (byte 38): only state ampersand continues
  [retract, retract, ampersand_ampersand, retract, retract, retract, retract,
   retract, retract, retract, retract, retract, retract, retract],
  -- row for class plus (byte 43): only state plus continues
  [retract, retract, retract, done_plus_plus, retract, retract, retract,
   retract, retract, retract, retract, retract, retract, retract],
  -- row for class equal (byte 61): every state continues
  [bang_equal, done_percent_equal, done_ampersand_equal, done_plus_equal,
   equal_equal, done_greater_equal, done_circumflex_equal, done_pipe_equal,
   done_bang_equal_equal, done_ampersand_ampersand_equal,
   done_equal_equal_equal, done_greater_greater_equal,
   done_pipe_pipe_equal, done_greater_greater_greater_equal],
  -- row for class greater (byte 62)
  [retract, retract, retract, retract, done_equal_greater, greater_greater,
   retract, retract, retract, retract, retract, greater_greater_greater,
   retract, retract],
  -- row for class circumflex (byte 94): every extension is invalid
  [retract, retract, retract, retract, retract, retract, retract,
   retract, retract, retract, retract, retract, retract, retract],
  -- row for class pipe (byte 124): only state pipe continues
  [retract, retract, retract, retract, retract, retract, retract,
   pipe_pipe, retract, retract, retract, retract, retract, retract],
  -- row for the catch-all class: every transition retracts
  [retract, retract, retract, retract, retract, retract, retract,
   retract, retract, retract, retract, retract, retract, retract],
  -- zero-initialized extra row of the C array (unreachable)
  [0, 0, 0, 0, 0, 0, 0, 0, 0, 0, 0, 0, 0, 0]]

/-- Table lookup transition_table[class][state].  The defaults of getD
are never used: the row index is a character class (below 9) and the
state index is an input state (below input_state_count) whenever the
driver consults the table. -/
def transition_entry (c s : Nat) : Nat :=
  (transition_table.getD c []).getD s retract

/-- Terminal state lookup table state_to_token, indexed by the data
bits of a state. -/
def state_to_token : List token_type := [
  token_type.bang,
  token_type.percent,
  token_type.ampersand,
  token_type.plus,
  token_type.equal,
  token_type.greater,
  token_type.circumflex,
  token_type.pipe,
  token_type.bang_equal,
  token_type.ampersand_ampersand,
  token_type.equal_equal,
  token_type.greater_greater,
  token_type.pipe_pipe,
  token_type.greater_greater_greater,
  token_type.percent_equal,
  token_type.ampersand_equal,
  token_type.plus_plus,
  token_type.plus_equal,
  token_type.equal_greater,
  token_type.greater_equal,
  token_type.circumflex_equal,
  token_type.pipe_equal,
  token_type.bang_equal_equal,
  token_type.ampersand_ampersand_equal,
  token_type.equal_equal_equal,
  token_type.greater_greater_equal,
  token_type.pipe_pipe_equal,
  token_type.greater_greater_greater_equal]

/-- The modelled fields of the lexer object that
try_parse_current_token touches: the input cursor (an offset into the
buffer) and the current token record fields it writes. -/
structure Lexer where
  input_ : Nat
  last_token_type : token_type
  last_token_end : Nat
  deriving DecidableEq

/-- Reading a byte of the sentinel-terminated buffer.  Offsets past the
explicit contents read the sentinel byte 0, which classifies to the
catch-all class, exactly the guarantee the caller must provide for the
memory after the meaningful input. -/
def byteAt (buf : List Nat) (i : Nat) : Nat := buf.getD i 0

/-- Fuel bound for the lookup loop: the length of the longest lexicon
spelling.  The DFA tree has depth 3 after the initial byte, so four
dispatch steps always finish; this is proved below, the driver never
returns none. -/
def lex_fuel : Nat := 4

/-- One dispatch step of the lookup algorithm together with the loop,
as fuelled recursion.  A call dispatches on the dispatcher bits of
new_state exactly like the computed-goto dispatch_table (equivalently
the dispatch switch) of the source:
dispatcher 0 is the transition label (classify the byte under the
cursor, look up the next state, advance the cursor, dispatch again),
dispatcher 1 is done_retract (un-consume the last byte and resolve from
old_state, the state held before the failed transition), and any other
dispatcher is done_unique_terminal (resolve from new_state).  The
result is the resolving state and the final cursor; none models
running out of fuel, which never happens with lex_fuel. -/
def lexRun (buf : List Nat) : Nat → Nat → Option Nat → Nat → Option (Nat × Nat)
  | 0, _, _, _ => none
  | fuel + 1, new_state, old_state, input =>
    match new_state >>> state_data_bits with
    | 0 =>
      lexRun buf fuel
        (transition_entry (character_class_table (byteAt buf input)) new_state)
        (some new_state) (input + 1)
    | 1 => some (old_state.getD 0, input - 1)
    | _ => some (new_state, input)

/-- The lookup driver (NOTE[lex-table-lookup] in the source).  The
first byte is classified and the class is used directly as the initial
state; if is_initial_state_terminal holds the driver dispatches on the
dispatcher bits of that state, otherwise it goes to the transition
label.  Both branches are the same lexRun call here because entering
lexRun dispatches on the dispatcher bits, and a non-initial-terminal
initial state has dispatcher 0, whose dispatch step is exactly the
transition label.  On resolution the driver writes the token type from
state_to_token, moves the lexer cursor to one past the last consumed
byte, sets the token end to the same position and returns true. -/
def try_parse_current_token (buf : List Nat) (l : Lexer) : Option (Bool × Lexer) :=
  let input := l.input_
  let new_state := character_class_table (byteAt buf input)
  let input2 := input + 1
  let r :=
    if is_initial_state_terminal new_state then
      lexRun buf lex_fuel new_state none input2
    else
      lexRun buf lex_fuel new_state none input2
  match r with
  | none => none
  | some (s, input3) =>
    some (true,
      ⟨input3, state_to_token.getD (s &&& state_data_mask) invalid_token_type, input3⟩)

/-- Condition of the QLJS_ASSERT placed right after the initial
classification in try_parse_current_token:
new_state != lex_tables::state::retract, where new_state is the class
of the byte under the cursor. -/
def try_parse_assert_cond (buf : List Nat) (l : Lexer) : Bool :=
  character_class_table (byteAt buf l.input_) != retract

/-
Verification-side definitions: the lexicon as data, byte and class
sequences read from a buffer, the spec predicates of the claims, and a
class-level mirror of the lookup loop used to settle the claims by
finite computation over character classes.
-/

/-- The fixed operator lexicon: every spelling the DFA recognizes
paired with its token kind, in the order of state_to_token (the
comments next to state_to_token in the source list exactly these
spellings).  Byte values: 33 bang, 37 percent, 38 ampersand, 43 plus,
61 equal, 62 greater, 94 circumflex, 124 pipe. -/
def lexicon : List (List Nat × token_type) := [
  ([33], token_type.bang),
  ([37], token_type.percent),
  ([38], token_type.ampersand),
  ([43], token_type.plus),
  ([61], token_type.equal),
  ([62], token_type.greater),
  ([94], token_type.circumflex),
  ([124], token_type.pipe),
  ([33, 61], token_type.bang_equal),
  ([38, 38], token_type.ampersand_ampersand),
  ([61, 61], token_type.equal_equal),
  ([62, 62], token_type.greater_greater),
  ([124, 124], token_type.pipe_pipe),
  ([62, 62, 62], token_type.greater_greater_greater),
  ([37, 61], token_type.percent_equal),
  ([38, 61], token_type.ampersand_equal),
  ([43, 43], token_type.plus_plus),
  ([43, 61], token_type.plus_equal),
  ([61, 62], token_type.equal_greater),
  ([62, 61], token_type.greater_equal),
  ([94, 61], token_type.circumflex_equal),
  ([124, 61], token_type.pipe_equal),
  ([33, 61, 61], token_type.bang_equal_equal),
  ([38, 38, 61], token_type.ampersand_ampersand_equal),
  ([61, 61, 61], token_type.equal_equal_equal),
  ([62, 62, 61], token_type.greater_greater_equal),
  ([124, 124, 61], token_type.pipe_pipe_equal),
  ([62, 62, 62, 61], token_type.greater_greater_greater_equal)]

/-- The spellings of the lexicon. -/
def spellings : List (List Nat) := lexicon.map Prod.fst

/-- The eight bytes that classify to a non-catch-all class. -/
def specialBytes : List Nat := [33, 37, 38, 43, 61, 62, 94, 124]

/-- Spellings with each byte replaced by its character class. -/
def classSpellings : List (List Nat) :=
  spellings.map (fun E => E.map character_class_table)

/-- The lexicon with each spelling replaced by its class sequence. -/
def lexiconC : List (List Nat × token_type) :=
  lexicon.map (fun pr => (pr.1.map character_class_table, pr.2))

/-- The n bytes of the buffer starting at offset p, reading the
sentinel padding past the end like byteAt. -/
def bytesFrom (buf : List Nat) : Nat → Nat → List Nat
  | _, 0 => []
  | p, n + 1 => byteAt buf p :: bytesFrom buf (p + 1) n

/-- Character classes of the n bytes starting at offset p. -/
def classesFrom (buf : List Nat) (p n : Nat) : List Nat :=
  (bytesFrom buf p n).map character_class_table

/-- The first k bytes at offset p exactly equal some lexicon entry. -/
def matchesLexicon (buf : List Nat) (p k : Nat) : Prop :=
  bytesFrom buf p k ∈ spellings

/-- The byte after the first k bytes at offset p extends them towards
a longer lexicon entry: the k + 1 bytes are a prefix of some entry
(such an entry is then necessarily longer than k). -/
def extendsLonger (buf : List Nat) (p k : Nat) : Prop :=
  ∃ E ∈ spellings, (bytesFrom buf p (k + 1)).isPrefixOf E = true

instance matchesLexicon.decidable (buf : List Nat) (p k : Nat) :
    Decidable (matchesLexicon buf p k) := by
  unfold matchesLexicon
  infer_instance

instance extendsLonger.decidable (buf : List Nat) (p k : Nat) :
    Decidable (extendsLonger buf p k) := by
  unfold extendsLonger
  infer_instance

/-- The automaton state reached from the initial state of the first
class by transitioning on the remaining classes. -/
def stateOfClasses : List Nat → Nat
  | [] => 0
  | c :: rest => rest.foldl (fun s c2 => transition_entry c2 s) c

/-- The input states of the transition table: the initial states 0..7,
the masquerading catch-all value 8 and the possibly-incomplete states
up to greater_greater_greater. -/
def inputStates : List Nat := List.range input_state_count

/-- Each resolvable state paired with the class sequence of the bytes
whose consumption reaches it: the class spelling of the token the
state resolves to.  The order follows state_to_token. -/
def stateStrings : List (Nat × List Nat) := [
  (bang, [bang]),
  (percent, [percent]),
  (ampersand, [ampersand]),
  (plus, [plus]),
  (equal, [equal]),
  (greater, [greater]),
  (circumflex, [circumflex]),
  (pipe, [pipe]),
  (bang_equal, [bang, equal]),
  (ampersand_ampersand, [ampersand, ampersand]),
  (equal_equal, [equal, equal]),
  (greater_greater, [greater, greater]),
  (pipe_pipe, [pipe, pipe]),
  (greater_greater_greater, [greater, greater, greater]),
  (done_percent_equal, [percent, equal]),
  (done_ampersand_equal, [ampersand, equal]),
  (done_plus_plus, [plus, plus]),
  (done_plus_equal, [plus, equal]),
  (done_equal_greater, [equal, greater]),
  (done_greater_equal, [greater, equal]),
  (done_circumflex_equal, [circumflex, equal]),
  (done_pipe_equal, [pipe, equal]),
  (done_bang_equal_equal, [bang, equal, equal]),
  (done_ampersand_ampersand_equal, [ampersand, ampersand, equal]),
  (done_equal_equal_equal, [equal, equal, equal]),
  (done_greater_greater_equal, [greater, greater, equal]),
  (done_pipe_pipe_equal, [pipe, pipe, equal]),
  (done_greater_greater_greater_equal, [greater, greater, greater, equal])]

/-- The class sequence consumed to reach a resolvable state. -/
def stringOfState (s : Nat) : List Nat :=
  ((stateStrings.find? (fun q => q.1 == s)).map Prod.snd).getD []

/-- The states a run can resolve from: continuation and done states
together with the single-byte initial states. -/
def resolutionStates : List Nat := stateStrings.map Prod.fst

/-- One edge of the state graph after the initial byte: a transition
of the table from an input state to a non-retract target. -/
def stepTo (s t : Nat) : Prop :=
  s < input_state_count ∧ t ≠ retract ∧
    ∃ c, c < character_class_count ∧ transition_entry c s = t

/-- Paths of length n in the transition graph. -/
def reachN : Nat → Nat → Nat → Prop
  | 0, s, t => s = t
  | n + 1, s, t => ∃ u, stepTo s u ∧ reachN n u t

/-- The continuation and done states: every state reachable after the
initial byte. -/
def contDoneStates : List Nat := [
  bang_equal, ampersand_ampersand, equal_equal, greater_greater,
  pipe_pipe, greater_greater_greater,
  done_percent_equal, done_ampersand_equal, done_plus_plus,
  done_plus_equal, done_equal_greater, done_greater_equal,
  done_circumflex_equal, done_pipe_equal, done_bang_equal_equal,
  done_ampersand_ampersand_equal, done_equal_equal_equal,
  done_greater_greater_equal, done_pipe_pipe_equal,
  done_greater_greater_greater_equal]

/-- Every (class, input state) index pair of the transition table. -/
def allPairs : List (Nat × Nat) :=
  (List.range character_class_count).flatMap
    (fun c => (List.range input_state_count).map (fun s => (c, s)))

/-
Helper lemmas: classification facts, byte/class sequence bridging.
-/

theorem class_lt9 (b : Nat) : character_class_table b < 9 := by
  unfold character_class_table
  split_ifs <;> decide

theorem character_class_table_eq (b : Nat) :
    character_class_table b =
      if b = 33 then 0 else if b = 37 then 1 else if b = 38 then 2
      else if b = 43 then 3 else if b = 61 then 4 else if b = 62 then 5
      else if b = 94 then 6 else if b = 124 then 7 else 8 := rfl

theorem class_eq_class_iff (e : Nat) (he : e ∈ specialBytes) (b : Nat) :
    character_class_table b = character_class_table e ↔ b = e := by
  have he2 : e = 33 ∨ e = 37 ∨ e = 38 ∨ e = 43 ∨ e = 61 ∨ e = 62 ∨
      e = 94 ∨ e = 124 := by simpa [specialBytes] using he
  simp only [character_class_table_eq]
  rcases he2 with rfl | rfl | rfl | rfl | rfl | rfl | rfl | rfl <;>
    norm_num <;> split_ifs <;> simp_all

theorem bytesFrom_length (buf : List Nat) : ∀ n p, (bytesFrom buf p n).length = n := by
  intro n
  induction n with
  | zero => intro p; rfl
  | succ k ih => intro p; simp [bytesFrom, ih]

theorem classesFrom_zero (buf : List Nat) (p : Nat) : classesFrom buf p 0 = [] := rfl

theorem classesFrom_succ (buf : List Nat) (p n : Nat) :
    classesFrom buf p (n + 1) =
      character_class_table (byteAt buf p) :: classesFrom buf (p + 1) n := by
  simp [classesFrom, bytesFrom]

theorem classesFrom_take (buf : List Nat) :
    ∀ n k p, k ≤ n → (classesFrom buf p n).take k = classesFrom buf p k := by
  intro n
  induction n with
  | zero =>
    intro k p h
    have : k = 0 := Nat.le_zero.mp h
    subst this
    rfl
  | succ m ih =>
    intro k p h
    cases k with
    | zero => rfl
    | succ k2 =>
      rw [classesFrom_succ, classesFrom_succ, List.take_succ_cons,
        ih k2 (p + 1) (Nat.succ_le_succ_iff.mp h)]

theorem bytesFrom_isPrefixOf (buf : List Nat) :
    ∀ n k p, k ≤ n → (bytesFrom buf p k).isPrefixOf (bytesFrom buf p n) = true := by
  intro n
  induction n with
  | zero =>
    intro k p h
    have : k = 0 := Nat.le_zero.mp h
    subst this
    rfl
  | succ m ih =>
    intro k p h
    cases k with
    | zero => rfl
    | succ k2 =>
      simp only [bytesFrom, List.isPrefixOf, beq_self_eq_true, Bool.true_and]
      exact ih k2 (p + 1) (Nat.succ_le_succ_iff.mp h)

theorem isPrefixOf_length :
    ∀ l1 l2 : List Nat, l1.isPrefixOf l2 = true → l1.length ≤ l2.length := by
  intro l1
  induction l1 with
  | nil => intro l2 _; simp
  | cons a as ih =>
    intro l2 h
    cases l2 with
    | nil => simp [List.isPrefixOf] at h
    | cons b bs =>
      simp only [List.isPrefixOf, Bool.and_eq_true] at h
      have := ih bs h.2
      simp only [List.length_cons]
      omega

theorem map_class_eq_iff :
    ∀ E : List Nat, (∀ e ∈ E, e ∈ specialBytes) → ∀ l : List Nat,
      (l.map character_class_table = E.map character_class_table ↔ l = E) := by
  intro E
  induction E with
  | nil =>
    intro _ l
    simp
  | cons e E2 ih =>
    intro hs l
    cases l with
    | nil => simp
    | cons b l2 =>
      simp only [List.map_cons, List.cons.injEq]
      have h1 := class_eq_class_iff e (hs e (List.mem_cons_self e E2)) b
      have h2 := ih (fun x hx => hs x (List.mem_cons_of_mem e hx)) l2
      constructor
      · rintro ⟨ha, hb⟩
        exact ⟨h1.mp ha, h2.mp hb⟩
      · rintro ⟨rfl, rfl⟩
        exact ⟨rfl, rfl⟩

theorem beq_class_eq (e : Nat) (he : e ∈ specialBytes) (b : Nat) :
    (character_class_table b == character_class_table e) = (b == e) := by
  by_cases hbe : b = e
  · subst hbe; simp
  · have h1 := class_eq_class_iff e he b
    have h2 : character_class_table b ≠ character_class_table e := fun hc => hbe (h1.mp hc)
    simp [hbe, h2]

theorem isPrefixOf_map_class :
    ∀ l E : List Nat, (∀ e ∈ E, e ∈ specialBytes) →
      ((l.map character_class_table).isPrefixOf (E.map character_class_table))
        = l.isPrefixOf E := by
  intro l
  induction l with
  | nil => intro E _; simp [List.isPrefixOf]
  | cons b l2 ih =>
    intro E hs
    cases E with
    | nil => simp [List.isPrefixOf]
    | cons e E2 =>
      simp only [List.map_cons, List.isPrefixOf]
      rw [beq_class_eq e (hs e (List.mem_cons_self e E2)) b,
        ih E2 (fun x hx => hs x (List.mem_cons_of_mem e hx))]

theorem spellings_special : ∀ E ∈ spellings, ∀ e ∈ E, e ∈ specialBytes := by decide

theorem spellings_length_le : ∀ E ∈ spellings, E.length ≤ 4 := by decide

theorem matchesLexicon_iff (buf : List Nat) (p k : Nat) :
    matchesLexicon buf p k ↔ classesFrom buf p k ∈ classSpellings := by
  constructor
  · intro h
    exact List.mem_map_of_mem _ h
  · intro h
    rcases List.mem_map.mp h with ⟨E, hE, hEq⟩
    have hsp := spellings_special E hE
    have : bytesFrom buf p k = E :=
      (map_class_eq_iff E hsp (bytesFrom buf p k)).mp hEq.symm
    unfold matchesLexicon
    rw [this]
    exact hE

theorem extendsLonger_iff (buf : List Nat) (p k : Nat) :
    extendsLonger buf p k ↔
      ∃ C ∈ classSpellings, (classesFrom buf p (k + 1)).isPrefixOf C = true := by
  constructor
  · rintro ⟨E, hE, hpre⟩
    refine ⟨E.map character_class_table, List.mem_map_of_mem _ hE, ?_⟩
    unfold classesFrom
    rw [isPrefixOf_map_class _ E (spellings_special E hE)]
    exact hpre
  · rintro ⟨C, hC, hpre⟩
    rcases List.mem_map.mp hC with ⟨E, hE, rfl⟩
    refine ⟨E, hE, ?_⟩
    unfold classesFrom at hpre
    rwa [isPrefixOf_map_class _ E (spellings_special E hE)] at hpre

theorem extendsLonger_four_false (buf : List Nat) (p : Nat) :
    ¬ extendsLonger buf p 4 := by
  rintro ⟨E, hE, hpre⟩
  have h1 := isPrefixOf_length _ _ hpre
  rw [bytesFrom_length] at h1
  have h2 := spellings_length_le E hE
  omega

theorem matchesLexicon_le (buf : List Nat) (p k : Nat) :
    matchesLexicon buf p k → k ≤ 4 := by
  intro h
  have h1 := spellings_length_le _ h
  rwa [bytesFrom_length] at h1


theorem lexRun_step0 (buf : List Nat) (f s : Nat) (old : Option Nat) (i : Nat)
    (h : s >>> state_data_bits = 0) :
    lexRun buf (f + 1) s old i =
      lexRun buf f (transition_entry (character_class_table (byteAt buf i)) s)
        (some s) (i + 1) := by
  simp only [lexRun, h]

theorem lexRun_step1 (buf : List Nat) (f s : Nat) (old : Option Nat) (i : Nat)
    (h : s >>> state_data_bits = 1) :
    lexRun buf (f + 1) s old i = some (old.getD 0, i - 1) := by
  simp only [lexRun, h]

theorem lexRun_step2 (buf : List Nat) (f s : Nat) (old : Option Nat) (i : Nat)
    (h : s >>> state_data_bits = 2) :
    lexRun buf (f + 1) s old i = some (s, i) := by
  simp only [lexRun, h]

theorem inputState_facts : ∀ s ∈ inputStates,
    stringOfState s ∈ classSpellings ∧ 1 ≤ (stringOfState s).length ∧
    (stringOfState s).length ≤ 3 ∧ s ∈ resolutionStates := by decide

theorem inputStates_dispatcher : ∀ s ∈ inputStates, s >>> state_data_bits = 0 := by decide

theorem retract_dispatcher : retract >>> state_data_bits = 1 := rfl

theorem transition_facts : ∀ s ∈ inputStates, ∀ c < 9,
    (transition_entry c s = retract ∧
      ∀ C ∈ classSpellings, (stringOfState s ++ [c]).isPrefixOf C = false) ∨
    (transition_entry c s ∈ inputStates ∧
      stringOfState (transition_entry c s) = stringOfState s ++ [c]) ∨
    ((transition_entry c s) >>> state_data_bits = 2 ∧
      transition_entry c s ∈ resolutionStates ∧
      stringOfState (transition_entry c s) = stringOfState s ++ [c] ∧
      ∀ C ∈ classSpellings,
        (stringOfState (transition_entry c s)).isPrefixOf C = false ∨
          C.length ≤ (stringOfState (transition_entry c s)).length) := by decide

theorem resolution_token_facts : ∀ s2 ∈ resolutionStates,
    (stringOfState s2,
      state_to_token.getD (s2 &&& state_data_mask) invalid_token_type) ∈ lexiconC ∧
    state_to_token.getD (s2 &&& state_data_mask) invalid_token_type ≠
      invalid_token_type := by decide

theorem resolution_stateOf_facts : ∀ s2 ∈ resolutionStates,
    stateOfClasses (stringOfState s2) = s2 := by decide

theorem initial_stringOf : ∀ c < 8, stringOfState c = [c] := by decide

theorem classesFrom_snoc (buf : List Nat) :
    ∀ n p, classesFrom buf p (n + 1) =
      classesFrom buf p n ++ [character_class_table (byteAt buf (p + n))] := by
  intro n
  induction n with
  | zero =>
    intro p
    simp [classesFrom_succ, classesFrom_zero]
  | succ k ih =>
    intro p
    rw [classesFrom_succ buf p (k + 1), ih (p + 1), classesFrom_succ buf p k]
    simp only [List.cons_append]
    have h2 : p + 1 + k = p + (k + 1) := by omega
    rw [h2]

theorem classesFrom_isPrefixOf (buf : List Nat) :
    ∀ n k p, k ≤ n →
      (classesFrom buf p k).isPrefixOf (classesFrom buf p n) = true := by
  intro n
  induction n with
  | zero =>
    intro k p h
    have : k = 0 := Nat.le_zero.mp h
    subst this
    rfl
  | succ m ih =>
    intro k p h
    cases k with
    | zero => rfl
    | succ k2 =>
      rw [classesFrom_succ buf p m, classesFrom_succ buf p k2]
      simp only [List.isPrefixOf, beq_self_eq_true, Bool.true_and]
      exact ih k2 (p + 1) (Nat.succ_le_succ_iff.mp h)

theorem isPrefixOf_append_one :
    ∀ (xs : List Nat) (a : Nat) (C : List Nat),
      (xs ++ [a]).isPrefixOf C = true →
        xs.isPrefixOf C = true ∧ xs.length < C.length := by
  intro xs
  induction xs with
  | nil =>
    intro a C h
    cases C with
    | nil => simp [List.isPrefixOf] at h
    | cons b bs => exact ⟨rfl, by simp⟩
  | cons x xs2 ih =>
    intro a C h
    cases C with
    | nil => simp [List.isPrefixOf] at h
    | cons b bs =>
      simp only [List.cons_append, List.isPrefixOf, Bool.and_eq_true] at h ⊢
      obtain ⟨h1, h2⟩ := h
      have h3 := ih a bs h2
      refine ⟨⟨h1, h3.1⟩, ?_⟩
      simp only [List.length_cons]
      omega

theorem lexRun_resolves (buf : List Nat) (p : Nat) :
    ∀ fuel s old n, s ∈ inputStates → n = (stringOfState s).length →
      classesFrom buf p n = stringOfState s → 5 - n ≤ fuel →
      ∃ s2 m, lexRun buf fuel s old (p + n) = some (s2, p + m) ∧
        1 ≤ m ∧ m ≤ 4 ∧ s2 ∈ resolutionStates ∧
        classesFrom buf p m = stringOfState s2 ∧
        ∀ C ∈ classSpellings, (classesFrom buf p (m + 1)).isPrefixOf C = false := by
  intro fuel
  induction fuel with
  | zero =>
    intro s old n hs hn hcl hf
    exfalso
    have ha := inputState_facts s hs
    omega
  | succ f ih =>
    intro s old n hs hn hcl hf
    obtain ⟨haMem, haLen1, haLen3, haRes⟩ := inputState_facts s hs
    have hd0 := inputStates_dispatcher s hs
    have hc9 : character_class_table (byteAt buf (p + n)) < 9 := class_lt9 _
    have ht := transition_facts s hs (character_class_table (byteAt buf (p + n))) hc9
    have hsnoc : classesFrom buf p (n + 1) =
        stringOfState s ++ [character_class_table (byteAt buf (p + n))] := by
      rw [classesFrom_snoc, hcl]
    rcases ht with ⟨hteq, hnoext⟩ | ⟨htin, htstr⟩ | ⟨htd, htres, htstr, htprop⟩
    · -- the transition on the next byte retracts: resolve from s at p + n
      have hf1 : 1 ≤ f := by omega
      obtain ⟨f2, rfl⟩ : ∃ f2, f = f2 + 1 := ⟨f - 1, by omega⟩
      refine ⟨s, n, ?_, by omega, by omega, haRes, hcl, ?_⟩
      · rw [lexRun_step0 buf (f2 + 1) s old (p + n) hd0, hteq,
          lexRun_step1 buf f2 retract (some s) (p + n + 1) retract_dispatcher]
        simp
      · intro C hC
        have := hnoext C hC
        rwa [hsnoc]
    · -- the transition continues: one more byte is consumed
      have hlen : n + 1 = (stringOfState
          (transition_entry (character_class_table (byteAt buf (p + n))) s)).length := by
        rw [htstr, List.length_append, List.length_singleton]
        omega
      have hcl2 : classesFrom buf p (n + 1) = stringOfState
          (transition_entry (character_class_table (byteAt buf (p + n))) s) := by
        rw [hsnoc, htstr]
      obtain ⟨s2, m, hrun, hm1, hm4, hres, hclm, hnx⟩ :=
        ih (transition_entry (character_class_table (byteAt buf (p + n))) s)
          (some s) (n + 1) htin hlen hcl2 (by omega)
      refine ⟨s2, m, ?_, hm1, hm4, hres, hclm, hnx⟩
      rw [lexRun_step0 buf f s old (p + n) hd0]
      have harith : p + n + 1 = p + (n + 1) := by omega
      rw [harith]
      exact hrun
    · -- the transition reaches a done state: resolve from it at p + n + 1
      have hf1 : 1 ≤ f := by omega
      obtain ⟨f2, rfl⟩ : ∃ f2, f = f2 + 1 := ⟨f - 1, by omega⟩
      have hcl2 : classesFrom buf p (n + 1) = stringOfState
          (transition_entry (character_class_table (byteAt buf (p + n))) s) := by
        rw [hsnoc, htstr]
      refine ⟨transition_entry (character_class_table (byteAt buf (p + n))) s, n + 1,
        ?_, by omega, ?_, htres, hcl2, ?_⟩
      · rw [lexRun_step0 buf (f2 + 1) s old (p + n) hd0,
          lexRun_step2 buf f2 _ (some s) (p + n + 1) htd]
        rfl
      · have h4 : (stringOfState (transition_entry
            (character_class_table (byteAt buf (p + n))) s)).length = n + 1 := by
          rw [htstr, List.length_append, List.length_singleton]
          omega
        omega
      · intro C hC
        by_contra hcon
        rw [Bool.not_eq_false] at hcon
        rw [classesFrom_snoc, hcl2] at hcon
        have h5 := isPrefixOf_append_one _ _ _ hcon
        rcases htprop C hC with h6 | h6
        · rw [h5.1] at h6
          simp at h6
        · omega

theorem try_parse_run (buf : List Nat) (l : Lexer) :
    try_parse_current_token buf l =
      match lexRun buf lex_fuel (character_class_table (byteAt buf l.input_)) none
          (l.input_ + 1) with
      | none => none
      | some (s, input3) =>
        some (true, ⟨input3,
          state_to_token.getD (s &&& state_data_mask) invalid_token_type,
          input3⟩) := by
  simp only [try_parse_current_token, ite_self]

theorem run_master (buf : List Nat) (l : Lexer)
    (h : character_class_table (byteAt buf l.input_) < 8) :
    ∃ s2 m,
      lexRun buf lex_fuel (character_class_table (byteAt buf l.input_)) none
        (l.input_ + 1) = some (s2, l.input_ + m) ∧
      1 ≤ m ∧ m ≤ 4 ∧ s2 ∈ resolutionStates ∧
      classesFrom buf l.input_ m = stringOfState s2 ∧
      ∀ C ∈ classSpellings,
        (classesFrom buf l.input_ (m + 1)).isPrefixOf C = false := by
  have hstr := initial_stringOf (character_class_table (byteAt buf l.input_)) h
  have hs : character_class_table (byteAt buf l.input_) ∈ inputStates := by
    simp only [inputStates, input_state_count, List.mem_range]
    omega
  have hn : (1 : Nat) = (stringOfState
      (character_class_table (byteAt buf l.input_))).length := by
    rw [hstr]
    rfl
  have hcl : classesFrom buf l.input_ 1 = stringOfState
      (character_class_table (byteAt buf l.input_)) := by
    rw [hstr, classesFrom_succ, classesFrom_zero]
  have hf : 5 - 1 ≤ lex_fuel := by decide
  exact lexRun_resolves buf l.input_ lex_fuel
    (character_class_table (byteAt buf l.input_)) none 1 hs hn hcl hf

theorem noext_maximal (buf : List Nat) (p m : Nat)
    (hnx : ∀ C ∈ classSpellings,
      (classesFrom buf p (m + 1)).isPrefixOf C = false) :
    ∀ k, classesFrom buf p k ∈ classSpellings → k ≤ m := by
  intro k hk
  by_contra hcon
  have hmk : m + 1 ≤ k := by omega
  have hpre := classesFrom_isPrefixOf buf k (m + 1) p hmk
  have := hnx (classesFrom buf p k) hk
  rw [hpre] at this
  simp at this

theorem step_increases : ∀ c < 9, ∀ s < 14,
    transition_entry c s ≠ retract → s < transition_entry c s := by decide

theorem predecessor_counts : ∀ t ∈ contDoneStates,
    (allPairs.filter (fun q => transition_entry q.1 q.2 == t)).length = 1 := by
  decide

theorem transition_injective_dec : ∀ q1 ∈ allPairs, ∀ q2 ∈ allPairs,
    transition_entry q1.1 q1.2 = retract ∨
    transition_entry q1.1 q1.2 ≠ transition_entry q2.1 q2.2 ∨ q1 = q2 := by
  decide

theorem resolution_string_facts : ∀ s2 ∈ resolutionStates,
    stringOfState s2 ∈ classSpellings ∧ s2 ≠ retract := by decide

theorem spellings_head_facts : ∀ E ∈ spellings,
    0 < E.length ∧ character_class_table (E.headD 0) < 8 := by decide

theorem lexiconC_keys_distinct : ∀ q1 ∈ lexiconC, ∀ q2 ∈ lexiconC,
    q1.1 ≠ q2.1 ∨ q1 = q2 := by decide

theorem mem_allPairs (c s : Nat) (hc : c < 9) (hs : s < 14) :
    (c, s) ∈ allPairs := by
  simp only [allPairs, List.mem_flatMap, List.mem_map, List.mem_range,
    character_class_count, input_state_count]
  exact ⟨c, hc, ⟨s, hs, rfl⟩⟩

theorem entry_resolution (buf : List Nat) (l : Lexer) (sp : List Nat)
    (tk : token_type) (hmem : (sp, tk) ∈ lexicon)
    (hbytes : bytesFrom buf l.input_ sp.length = sp)
    (hnext : ¬ extendsLonger buf l.input_ sp.length) :
    try_parse_current_token buf l =
      some (true, ⟨l.input_ + sp.length, tk, l.input_ + sp.length⟩) ∧
    ∃ s, lexRun buf lex_fuel (character_class_table (byteAt buf l.input_)) none
        (l.input_ + 1) = some (s, l.input_ + sp.length) ∧ s ≠ retract ∧
      s = stateOfClasses (classesFrom buf l.input_ sp.length) := by
  have hsp : sp ∈ spellings := List.mem_map_of_mem Prod.fst hmem
  have hhead := spellings_head_facts sp hsp
  have hb0 : byteAt buf l.input_ = sp.headD 0 := by
    cases sp with
    | nil => simp at hhead
    | cons a rest =>
      simp only [List.length_cons, bytesFrom, List.cons.injEq] at hbytes
      exact hbytes.1
  have hc0 : character_class_table (byteAt buf l.input_) < 8 := by
    rw [hb0]
    exact hhead.2
  obtain ⟨s2, m, hrun, hm1, hm4, hres, hclm, hnx⟩ := run_master buf l hc0
  have hclsp : classesFrom buf l.input_ sp.length =
      sp.map character_class_table := by
    unfold classesFrom
    rw [hbytes]
  have hmatch : classesFrom buf l.input_ sp.length ∈ classSpellings := by
    rw [hclsp]
    exact List.mem_map_of_mem _ hsp
  have hge : sp.length ≤ m := noext_maximal buf l.input_ m hnx sp.length hmatch
  have hle : m ≤ sp.length := by
    by_contra hcon
    apply hnext
    refine ⟨bytesFrom buf l.input_ m, ?_, ?_⟩
    · have hm2 : classesFrom buf l.input_ m ∈ classSpellings := by
        rw [hclm]
        exact (resolution_string_facts s2 hres).1
      exact (matchesLexicon_iff buf l.input_ m).mpr hm2
    · exact bytesFrom_isPrefixOf buf m (sp.length + 1) l.input_ (by omega)
  have hm : m = sp.length := by omega
  subst hm
  have htokf := resolution_token_facts s2 hres
  have hq1 : (sp.map character_class_table, tk) ∈ lexiconC :=
    List.mem_map_of_mem (fun pr => (pr.1.map character_class_table, pr.2)) hmem
  have hstr2 : stringOfState s2 = sp.map character_class_table := by
    rw [← hclm, hclsp]
  have hq2 : (sp.map character_class_table,
      state_to_token.getD (s2 &&& state_data_mask) invalid_token_type) ∈ lexiconC := by
    rw [← hstr2]
    exact htokf.1
  have hdis := lexiconC_keys_distinct _ hq1 _ hq2
  have htk : state_to_token.getD (s2 &&& state_data_mask) invalid_token_type = tk := by
    rcases hdis with h | h
    · exact absurd rfl h
    · have h2 := congrArg Prod.snd h
      simpa using h2.symm
  constructor
  · simp only [try_parse_run, hrun, htk]
  · refine ⟨s2, hrun, (resolution_string_facts s2 hres).2, ?_⟩
    rw [hclm]
    exact (resolution_stateOf_facts s2 hres).symm

theorem row8_retract : ∀ c < 9, c ≠ equal →
    transition_entry c other_character_class = retract := by decide

theorem row8_equal :
    transition_entry equal other_character_class = done_bang_equal_equal := rfl

/-- Claim C1: for every sentinel-terminated input buffer whose first
byte classifies to one of the eight operator classes, the number of
bytes consumed by try_parse_current_token is the greatest k such that
the first k bytes exactly equal some lexicon entry and the byte after
them does not extend that entry towards a longer lexicon entry. -/
theorem maximal_munch_correct (buf : List Nat) (l : Lexer)
    (h : character_class_table (byteAt buf l.input_) < 8) :
    ∃ l2, try_parse_current_token buf l = some (true, l2) ∧
      (matchesLexicon buf l.input_ (l2.input_ - l.input_) ∧
        ¬ extendsLonger buf l.input_ (l2.input_ - l.input_)) ∧
      ∀ k, matchesLexicon buf l.input_ k ∧ ¬ extendsLonger buf l.input_ k →
        k ≤ l2.input_ - l.input_ := by
  obtain ⟨s2, m, hrun, hm1, hm4, hres, hclm, hnx⟩ := run_master buf l h
  have hL : l.input_ + m - l.input_ = m := by omega
  refine ⟨⟨l.input_ + m,
    state_to_token.getD (s2 &&& state_data_mask) invalid_token_type,
    l.input_ + m⟩, ?_, ⟨?_, ?_⟩, ?_⟩
  · simp only [try_parse_run, hrun]
  · show matchesLexicon buf l.input_ (l.input_ + m - l.input_)
    rw [hL, matchesLexicon_iff, hclm]
    exact (resolution_string_facts s2 hres).1
  · show ¬ extendsLonger buf l.input_ (l.input_ + m - l.input_)
    rw [hL]
    intro hext
    rcases (extendsLonger_iff buf l.input_ m).mp hext with ⟨C, hC, hpre⟩
    have h2 := hnx C hC
    rw [hpre] at h2
    simp at h2
  · intro k hk
    have hkm := noext_maximal buf l.input_ m hnx k
      ((matchesLexicon_iff buf l.input_ k).mp hk.1)
    show k ≤ l.input_ + m - l.input_
    omega

theorem maximal_munch_correct_witness :
    character_class_table (byteAt [62, 62, 62, 61] 0) < 8 ∧
    (∃ l2, try_parse_current_token [62, 62, 62, 61]
        ⟨0, token_type.identifier, 0⟩ = some (true, l2) ∧
      (matchesLexicon [62, 62, 62, 61] 0 (l2.input_ - 0) ∧
        ¬ extendsLonger [62, 62, 62, 61] 0 (l2.input_ - 0)) ∧
      ∀ k, matchesLexicon [62, 62, 62, 61] 0 k ∧
          ¬ extendsLonger [62, 62, 62, 61] 0 k →
        k ≤ l2.input_ - 0) :=
  ⟨by decide,
   maximal_munch_correct [62, 62, 62, 61] ⟨0, token_type.identifier, 0⟩ (by decide)⟩

/-- Claim C2: for every lexicon entry that is a proper prefix of a
longer entry, an input whose first bytes are the entry followed by a
byte that does not extend it towards any longer entry resolves to
exactly that entry: its token kind, its length, the cursor one past
the entry, and the resolving state is the state reached by the entry
itself, never the retract sentinel. -/
theorem retract_correct (buf : List Nat) (l : Lexer) (sp : List Nat)
    (tk : token_type) (hmem : (sp, tk) ∈ lexicon)
    (_hproper : ∃ sp2 ∈ spellings, sp.isPrefixOf sp2 = true ∧
      sp.length < sp2.length)
    (hbytes : bytesFrom buf l.input_ sp.length = sp)
    (hnext : ¬ extendsLonger buf l.input_ sp.length) :
    try_parse_current_token buf l =
      some (true, ⟨l.input_ + sp.length, tk, l.input_ + sp.length⟩) ∧
    ∃ s, lexRun buf lex_fuel (character_class_table (byteAt buf l.input_))
        none (l.input_ + 1) = some (s, l.input_ + sp.length) ∧ s ≠ retract ∧
      s = stateOfClasses (classesFrom buf l.input_ sp.length) :=
  entry_resolution buf l sp tk hmem hbytes hnext

theorem retract_correct_witness :
    ([62], token_type.greater) ∈ lexicon ∧
    (∃ sp2 ∈ spellings, List.isPrefixOf [62] sp2 = true ∧
      ([62] : List Nat).length < sp2.length) ∧
    bytesFrom [62, 33] 0 ([62] : List Nat).length = [62] ∧
    ¬ extendsLonger [62, 33] 0 ([62] : List Nat).length ∧
    (try_parse_current_token [62, 33] ⟨0, token_type.identifier, 0⟩ =
      some (true, ⟨0 + ([62] : List Nat).length, token_type.greater,
        0 + ([62] : List Nat).length⟩) ∧
    ∃ s, lexRun [62, 33] lex_fuel
        (character_class_table (byteAt [62, 33] 0)) none (0 + 1) =
        some (s, 0 + ([62] : List Nat).length) ∧ s ≠ retract ∧
      s = stateOfClasses (classesFrom [62, 33] 0 ([62] : List Nat).length)) :=
  ⟨by decide, by decide, by decide, by decide,
   retract_correct [62, 33] ⟨0, token_type.identifier, 0⟩ [62]
     token_type.greater (by decide) (by decide) (by decide) (by decide)⟩

/-- Claim C3 counterexample: on the buffer starting with byte 97
(which classifies to the catch-all class, the only class for which
is_initial_state_terminal holds) followed by byte 61, the driver does
not resolve immediately with a single-byte token: it classifies and
transitions on the second byte and returns the two-byte token
bang_equal_equal with two bytes consumed. -/
theorem initial_terminal_counterexample :
    is_initial_state_terminal (character_class_table (byteAt [97, 61] 0)) = true ∧
    try_parse_current_token [97, 61] ⟨0, token_type.identifier, 0⟩ =
      some (true, ⟨2, token_type.bang_equal_equal, 2⟩) := by decide

/-- Claim C3 (amended): when the first byte classifies to the
catch-all class, is_initial_state_terminal holds and the driver
dispatches on the dispatcher bits of that state, which are 0, so it
continues into the transition label with the catch-all value
masquerading as state bang_equal: it classifies the next byte and
transitions on it, resolving to bang_equal_equal with two bytes
consumed when that byte classifies to equal, and otherwise retracting
and resolving to bang_equal with one byte consumed; it does not
resolve immediately. -/
theorem initial_terminal_dispatch (buf : List Nat) (l : Lexer)
    (h : character_class_table (byteAt buf l.input_) = other_character_class) :
    is_initial_state_terminal (character_class_table (byteAt buf l.input_)) = true ∧
    try_parse_current_token buf l =
      if character_class_table (byteAt buf (l.input_ + 1)) = equal then
        some (true, ⟨l.input_ + 2, token_type.bang_equal_equal, l.input_ + 2⟩)
      else
        some (true, ⟨l.input_ + 1, token_type.bang_equal, l.input_ + 1⟩) := by
  refine ⟨by rw [h]; decide, ?_⟩
  by_cases hc : character_class_table (byteAt buf (l.input_ + 1)) = equal
  · rw [if_pos hc]
    have hrun : lexRun buf lex_fuel
        (character_class_table (byteAt buf l.input_)) none (l.input_ + 1) =
        some (done_bang_equal_equal, l.input_ + 2) := by
      rw [h, show lex_fuel = 3 + 1 from rfl,
        lexRun_step0 buf 3 other_character_class none (l.input_ + 1) (by decide),
        hc, row8_equal, show (3 : Nat) = 2 + 1 from rfl,
        lexRun_step2 buf 2 done_bang_equal_equal (some other_character_class)
          (l.input_ + 1 + 1) (by decide)]
    simp only [try_parse_run, hrun]
    rfl
  · rw [if_neg hc]
    have hcne : character_class_table (byteAt buf (l.input_ + 1)) ≠ equal := hc
    have hr := row8_retract (character_class_table (byteAt buf (l.input_ + 1)))
      (class_lt9 (byteAt buf (l.input_ + 1))) hcne
    have hrun : lexRun buf lex_fuel
        (character_class_table (byteAt buf l.input_)) none (l.input_ + 1) =
        some (other_character_class, l.input_ + 1) := by
      rw [h, show lex_fuel = 3 + 1 from rfl,
        lexRun_step0 buf 3 other_character_class none (l.input_ + 1) (by decide),
        hr, show (3 : Nat) = 2 + 1 from rfl,
        lexRun_step1 buf 2 retract (some other_character_class)
          (l.input_ + 1 + 1) retract_dispatcher]
      have h2 : l.input_ + 1 + 1 - 1 = l.input_ + 1 := by omega
      rw [h2]
      rfl
    simp only [try_parse_run, hrun]
    rfl

theorem initial_terminal_dispatch_witness :
    character_class_table (byteAt [98, 97] 0) = other_character_class ∧
    (is_initial_state_terminal (character_class_table (byteAt [98, 97] 0)) = true ∧
    try_parse_current_token [98, 97] ⟨0, token_type.identifier, 0⟩ =
      if character_class_table (byteAt [98, 97] (0 + 1)) = equal then
        some (true, ⟨0 + 2, token_type.bang_equal_equal, 0 + 2⟩)
      else
        some (true, ⟨0 + 1, token_type.bang_equal, 0 + 1⟩)) :=
  ⟨by decide,
   initial_terminal_dispatch [98, 97] ⟨0, token_type.identifier, 0⟩ (by decide)⟩

/-- Claim C4 counterexample: byte 97 classifies to the catch-all
class, yet the condition of the assertion after the initial
classification is true (the initial state is not the retract value):
the assertion does not fire exactly when the first byte is catch-all. -/
theorem assert_cond_counterexample :
    character_class_table (byteAt [97] 0) = other_character_class ∧
    try_parse_assert_cond [97] ⟨0, token_type.identifier, 0⟩ = true := by decide

/-- Claim C4 (amended): the condition of the assertion in the driver
(initial state different from the retract value) is true for every
buffer and every cursor, because classification only produces values
0..8 and retract is 32: the assertion can never fire, also not on the
catch-all class. -/
theorem assert_cond_always_true (buf : List Nat) (l : Lexer) :
    try_parse_assert_cond buf l = true := by
  unfold try_parse_assert_cond
  have h9 := class_lt9 (byteAt buf l.input_)
  have hr : retract = 32 := rfl
  simp only [bne_iff_ne, ne_eq]
  omega

/-- Claim C5: the transition graph restricted to the states reachable
after the initial byte is a tree: no state reaches itself by a
nonempty path, no two distinct (class, state) pairs of the table give
the same non-retract target, and every continuation and done state
has exactly one predecessor transition. -/
theorem transition_graph_tree :
    (∀ s n, ¬ reachN (n + 1) s s) ∧
    (∀ c1 s1 c2 s2, c1 < character_class_count → s1 < input_state_count →
      c2 < character_class_count → s2 < input_state_count →
      transition_entry c1 s1 ≠ retract →
      transition_entry c1 s1 = transition_entry c2 s2 → c1 = c2 ∧ s1 = s2) ∧
    (∀ t ∈ contDoneStates,
      (allPairs.filter (fun q => transition_entry q.1 q.2 == t)).length = 1) := by
  have hstep : ∀ s t, stepTo s t → s < t := by
    rintro s t ⟨hs, hne, c, hc, rfl⟩
    exact step_increases c hc s hs hne
  have hreach : ∀ n s t, reachN n s t → s ≤ t := by
    intro n
    induction n with
    | zero => intro s t hyp; exact le_of_eq hyp
    | succ k ih =>
      rintro s t ⟨u, hsu, hut⟩
      have h1 := hstep s u hsu
      have h2 := ih u t hut
      omega
  refine ⟨?_, ?_, predecessor_counts⟩
  · rintro s n ⟨u, hsu, hus⟩
    have h1 := hstep s u hsu
    have h2 := hreach n u s hus
    omega
  · intro c1 s1 c2 s2 hc1 hs1 hc2 hs2 hne heq
    have h1 := transition_injective_dec (c1, s1) (mem_allPairs c1 s1 hc1 hs1)
      (c2, s2) (mem_allPairs c2 s2 hc2 hs2)
    rcases h1 with h2 | h2 | h2
    · exact absurd h2 hne
    · exact absurd heq h2
    · exact ⟨congrArg Prod.fst h2, congrArg Prod.snd h2⟩

theorem transition_graph_tree_witness :
    ¬ reachN (0 + 1) bang_equal bang_equal ∧
    ((4 : Nat) = 4 ∧ (0 : Nat) = 0) ∧
    (allPairs.filter
      (fun q => transition_entry q.1 q.2 == bang_equal)).length = 1 :=
  ⟨transition_graph_tree.1 bang_equal 0,
   transition_graph_tree.2.1 4 0 4 0 (by decide) (by decide) (by decide)
     (by decide) (by decide) rfl,
   transition_graph_tree.2.2 bang_equal (by decide)⟩

/-- Claim C6: for every sentinel-terminated buffer whose first byte
classifies to a non-catch-all class, the number of bytes consumed by
try_parse_current_token is between 1 and 4, the length of the longest
lexicon spelling. -/
theorem bounded_consumption (buf : List Nat) (l : Lexer)
    (h : character_class_table (byteAt buf l.input_) < 8) :
    ∃ l2, try_parse_current_token buf l = some (true, l2) ∧
      1 ≤ l2.input_ - l.input_ ∧ l2.input_ - l.input_ ≤ 4 := by
  obtain ⟨s2, m, hrun, hm1, hm4, _, _, _⟩ := run_master buf l h
  refine ⟨⟨l.input_ + m,
    state_to_token.getD (s2 &&& state_data_mask) invalid_token_type,
    l.input_ + m⟩, ?_, ?_, ?_⟩
  · simp only [try_parse_run, hrun]
  · show 1 ≤ l.input_ + m - l.input_
    omega
  · show l.input_ + m - l.input_ ≤ 4
    omega

theorem bounded_consumption_witness :
    character_class_table (byteAt [43, 43, 43] 0) < 8 ∧
    (∃ l2, try_parse_current_token [43, 43, 43]
        ⟨0, token_type.identifier, 0⟩ = some (true, l2) ∧
      1 ≤ l2.input_ - 0 ∧ l2.input_ - 0 ≤ 4) :=
  ⟨by decide,
   bounded_consumption [43, 43, 43] ⟨0, token_type.identifier, 0⟩ (by decide)⟩

/-- Claim C7: every lexicon entry, presented as the first bytes of the
input and followed by a byte that does not extend it towards a longer
entry, resolves to exactly its own token kind with its own length. -/
theorem lexicon_exhaustive (buf : List Nat) (l : Lexer) (sp : List Nat)
    (tk : token_type) (hmem : (sp, tk) ∈ lexicon)
    (hbytes : bytesFrom buf l.input_ sp.length = sp)
    (hnext : ¬ extendsLonger buf l.input_ sp.length) :
    try_parse_current_token buf l =
      some (true, ⟨l.input_ + sp.length, tk, l.input_ + sp.length⟩) :=
  (entry_resolution buf l sp tk hmem hbytes hnext).1

theorem lexicon_exhaustive_witness :
    ([33, 61], token_type.bang_equal) ∈ lexicon ∧
    bytesFrom [33, 61, 97] 0 ([33, 61] : List Nat).length = [33, 61] ∧
    ¬ extendsLonger [33, 61, 97] 0 ([33, 61] : List Nat).length ∧
    try_parse_current_token [33, 61, 97] ⟨0, token_type.identifier, 0⟩ =
      some (true, ⟨0 + ([33, 61] : List Nat).length, token_type.bang_equal,
        0 + ([33, 61] : List Nat).length⟩) :=
  ⟨by decide, by decide, by decide,
   lexicon_exhaustive [33, 61, 97] ⟨0, token_type.identifier, 0⟩ [33, 61]
     token_type.bang_equal (by decide) (by decide) (by decide)⟩

/-- Claim C8: for every sentinel-terminated buffer whose first byte
classifies to a non-catch-all class, the classify-transition loop of
the driver terminates within lex_fuel = 4 dispatch steps, the length
of the longest lexicon spelling: lexRun never runs out of its fuel
bound (never returns none), so the whole call resolves. -/
theorem lookup_terminates (buf : List Nat) (l : Lexer)
    (h : character_class_table (byteAt buf l.input_) < 8) :
    (∃ r, lexRun buf lex_fuel (character_class_table (byteAt buf l.input_))
      none (l.input_ + 1) = some r) ∧
    (try_parse_current_token buf l).isSome = true := by
  obtain ⟨s2, m, hrun, _, _, _, _, _⟩ := run_master buf l h
  refine ⟨⟨(s2, l.input_ + m), hrun⟩, ?_⟩
  simp only [try_parse_run, hrun]
  rfl

theorem lookup_terminates_witness :
    character_class_table (byteAt [38, 38, 61] 0) < 8 ∧
    ((∃ r, lexRun [38, 38, 61] lex_fuel
        (character_class_table (byteAt [38, 38, 61] 0)) none (0 + 1) = some r) ∧
    (try_parse_current_token [38, 38, 61] ⟨0, token_type.identifier, 0⟩).isSome
      = true) :=
  ⟨by decide,
   lookup_terminates [38, 38, 61] ⟨0, token_type.identifier, 0⟩ (by decide)⟩

/-- Claim C9: the lookup is deterministic and depends on nothing but
the buffer contents and the starting offset: two lexers with the same
cursor produce identical results on the same buffer, whatever their
other fields hold. -/
theorem lookup_deterministic (buf : List Nat) (l1 l2 : Lexer)
    (h : l1.input_ = l2.input_) :
    try_parse_current_token buf l1 = try_parse_current_token buf l2 := by
  rw [try_parse_run buf l1, try_parse_run buf l2, h]

theorem lookup_deterministic_witness :
    (⟨0, token_type.identifier, 0⟩ : Lexer).input_ =
      (⟨0, token_type.bang, 7⟩ : Lexer).input_ ∧
    try_parse_current_token [61, 62] ⟨0, token_type.identifier, 0⟩ =
      try_parse_current_token [61, 62] ⟨0, token_type.bang, 7⟩ :=
  ⟨rfl, lookup_deterministic [61, 62] ⟨0, token_type.identifier, 0⟩
    ⟨0, token_type.bang, 7⟩ rfl⟩

/-- Claim C10: under the precondition (first byte of a non-catch-all
class, sentinel-terminated buffer) try_parse_current_token always
returns true, writes a real token kind (never invalid_token_type),
and sets both the cursor and the token end to one past the last
consumed byte. -/
theorem lookup_total_success (buf : List Nat) (l : Lexer)
    (h : character_class_table (byteAt buf l.input_) < 8) :
    ∃ l2, try_parse_current_token buf l = some (true, l2) ∧
      l2.last_token_type ≠ invalid_token_type ∧
      l2.last_token_end = l2.input_ ∧
      l.input_ < l2.input_ ∧ l2.input_ ≤ l.input_ + 4 := by
  obtain ⟨s2, m, hrun, hm1, hm4, hres, _, _⟩ := run_master buf l h
  refine ⟨⟨l.input_ + m,
    state_to_token.getD (s2 &&& state_data_mask) invalid_token_type,
    l.input_ + m⟩, ?_, ?_, rfl, ?_, ?_⟩
  · simp only [try_parse_run, hrun]
  · exact (resolution_token_facts s2 hres).2
  · show l.input_ < l.input_ + m
    omega
  · show l.input_ + m ≤ l.input_ + 4
    omega

theorem lookup_total_success_witness :
    character_class_table (byteAt [94, 61] 0) < 8 ∧
    (∃ l2, try_parse_current_token [94, 61] ⟨0, token_type.identifier, 0⟩ =
        some (true, l2) ∧
      l2.last_token_type ≠ invalid_token_type ∧
      l2.last_token_end = l2.input_ ∧
      0 < l2.input_ ∧ l2.input_ ≤ 0 + 4) :=
  ⟨by decide,
   lookup_total_success [94, 61] ⟨0, token_type.identifier, 0⟩ (by decide)⟩
